import Mathlib

/-!
Shallow embedding of two elaboration passes of the Hack naming phase:
the type-parameter scope validator (`validate_hint_habstr.rs`) and the
interface structural validator (`validate_interface.rs`), together with
theorems checking the natural-language specification against them.
-/

/-- Source positions, modelled abstractly as natural numbers. -/
abbrev Pos := Nat

/-- The wildcard type-parameter marker (`sn::typehints::WILDCARD`). -/
def WILDCARD : String := "_"

/-- The reserved self-type name (`sn::typehints::THIS`). -/
def THIS : String := "this"

/-- Rust `str::to_lowercase` on the ASCII identifiers this pass handles,
as a character-list operation so it evaluates in the kernel. -/
def to_lowercase (s : String) : List Char := s.data.map Char.toLower

/-- Rust `str::starts_with(c : char)`. -/
def starts_with (s : String) (c : Char) : Bool :=
  match s.data with
  | [] => false
  | c' :: _ => c' = c

/-- The kind recorded for a bound type parameter (`TparamKind`). -/
inductive TparamKind where
  | concrete
  | higher
deriving DecidableEq

/-- Reification marker on a type parameter (`oxidized::tast::ReifyKind`);
only equality with `erased` is consulted by the pass. -/
inductive ReifyKind where
  | erased
  | softReified
  | reified
deriving DecidableEq

/-- Variance marker on a type parameter (`oxidized::ast_defs::Variance`). -/
inductive Variance where
  | covariant
  | contravariant
  | invariant
deriving DecidableEq

/-- Rust `Variance::is_invariant`. -/
def Variance.is_invariant : Variance → Bool
  | .invariant => true
  | _ => false

/-- The feature tag of `HKTUnsupportedFeature` diagnostics
(`oxidized::naming_error::UnsupportedFeature`). -/
inductive UnsupportedFeature where
  | ftConstraints
  | ftReification
  | ftUserAttrs
  | ftVariance
  | ftWhereConstraints
deriving DecidableEq

/-- The diagnostics emitted by the two passes
(`NamingPhaseError::Naming(..)` and `NamingPhaseError::NastCheck(..)`
variants, flattened to the constructors actually produced). -/
inductive NamingPhaseError where
  | shadowedTparam (pos : Pos) (tparam_name : String) (prev_pos : Pos)
  | tparamNonShadowingReuse (pos : Pos) (tparam_name : String)
  | thisReserved (pos : Pos)
  | wildcardHintDisallowed (pos : Pos)
  | startWithT (pos : Pos)
  | hktUnsupportedFeature (pos : Pos) (because_nested : Bool) (var_name : String)
      (feature : UnsupportedFeature)
  | interfaceUsesTrait (pos : Pos)
  | interfaceWithMemberVariable (pos : Pos)
  | interfaceWithStaticMemberVariable (pos : Pos)
  | abstractBody (pos : Pos)
deriving DecidableEq

/-- A type-parameter declaration (`oxidized::aast_defs::Tparam`).  The
`name` and `pos` fields are the two components of the `Id` in the Rust
struct; `constraints` and `user_attributes` are consulted only for
emptiness, so their elements are modelled as `Unit`. -/
inductive Tparam where
  | mk (variance : Variance) (name : String) (pos : Pos) (parameters : List Tparam)
      (constraints : List Unit) (reify : ReifyKind) (user_attributes : List Unit) : Tparam

/-- Field `variance` of a `Tparam`. -/
def Tparam.variance : Tparam → Variance
  | .mk v _ _ _ _ _ _ => v

/-- Name component of the `Id` field `name` of a `Tparam`. -/
def Tparam.name : Tparam → String
  | .mk _ n _ _ _ _ _ => n

/-- Position component of the `Id` field `name` of a `Tparam`. -/
def Tparam.pos : Tparam → Pos
  | .mk _ _ p _ _ _ _ => p

/-- Field `parameters` of a `Tparam`. -/
def Tparam.parameters : Tparam → List Tparam
  | .mk _ _ _ ps _ _ _ => ps

/-- Field `constraints` of a `Tparam`. -/
def Tparam.constraints : Tparam → List Unit
  | .mk _ _ _ _ cs _ _ => cs

/-- Field `reified` of a `Tparam`. -/
def Tparam.reified : Tparam → ReifyKind
  | .mk _ _ _ _ _ r _ => r

/-- Field `user_attributes` of a `Tparam`. -/
def Tparam.user_attributes : Tparam → List Unit
  | .mk _ _ _ _ _ _ ua => ua

/-- A Scope Table record: `(declaration position, inScope, kind)`. -/
abbrev ScopeEntry := Pos × Bool × TparamKind

/-- The Scope Table (`HashMap<String, (Pos, bool, TparamKind)>`),
modelled as an association list with unique keys. -/
abbrev ScopeTable := List (String × ScopeEntry)

/-- `HashMap::get`. -/
def lookupST : ScopeTable → String → Option ScopeEntry
  | [], _ => none
  | (k, v) :: rest, k' => if k' = k then some v else lookupST rest k'

/-- `HashMap::insert`: overwrite the entry for `k` if present, else add it. -/
def insertST : ScopeTable → String → ScopeEntry → ScopeTable
  | [], k, v => [(k, v)]
  | (k', v') :: rest, k, v =>
      if k' = k then (k, v) :: rest else (k', v') :: insertST rest k v

/-- `HashMap::entry(k).and_modify(|e| e.1 = false)`: set the `inScope`
component of `k`'s entry to `false` when the entry exists, else no-op. -/
def unbindST : ScopeTable → String → ScopeTable
  | [], _ => []
  | (k', (p, b, kd)) :: rest, k =>
      if k' = k then (k', (p, false, kd)) :: rest
      else (k', (p, b, kd)) :: unbindST rest k

/-- The bind pass of `check_tparams` (lines 77–108): in declaration order,
skipping wildcard names, look each name up (emitting `ShadowedTparam` when
found in scope, `TparamNonShadowingReuse` when found out of scope, nothing
when absent) and then insert/overwrite the entry as
`(position, inScope = true, kind)` with `kind = higher` iff the parameter
list is non-empty. -/
def bindTparams : ScopeTable → List Tparam → ScopeTable × List NamingPhaseError
  | st, [] => (st, [])
  | st, tp :: rest =>
      if tp.name = WILDCARD then bindTparams st rest
      else
        let errs : List NamingPhaseError :=
          match lookupST st tp.name with
          | some (prev_pos, true, _) => [.shadowedTparam tp.pos tp.name prev_pos]
          | some (_, false, _) => [.tparamNonShadowingReuse tp.pos tp.name]
          | none => []
        let kind : TparamKind := if tp.parameters.isEmpty then .concrete else .higher
        let r := bindTparams (insertST st tp.name (tp.pos, true, kind)) rest
        (r.1, errs ++ r.2)

/-- The unbind step of `check_tparams` (lines 116–125): for every
non-wildcard name in the list, mark its table entry out of scope. -/
def unbindTparams : ScopeTable → List Tparam → ScopeTable
  | st, [] => st
  | st, tp :: rest =>
      if tp.name = WILDCARD then unbindTparams st rest
      else unbindTparams (unbindST st tp.name) rest

/-- The name-rule portion of `check_tparam` (lines 137–154): an
`if / else if / else if` chain over reserved-this, wildcard and
must-start-with-T. -/
def nameErrs (tp : Tparam) (nested : Bool) : List NamingPhaseError :=
  if to_lowercase tp.name = THIS.data then [.thisReserved tp.pos]
  else if tp.name = WILDCARD && (!nested || !tp.parameters.isEmpty) then
    [.wildcardHintDisallowed tp.pos]
  else if tp.name.isEmpty || !starts_with tp.name 'T' then [.startWithT tp.pos]
  else []

/-- The feature-restriction portion of `check_tparam` (lines 156–249):
for each of the four restricted features that is present, push a
`because_nested = true` diagnostic when the list is nested and a
`because_nested = false` diagnostic when the parameter is itself
higher-kinded. -/
def featureErrs (tp : Tparam) (nested : Bool) : List NamingPhaseError :=
  let is_hk := !tp.parameters.isEmpty
  (if !tp.constraints.isEmpty then
    (if nested then [.hktUnsupportedFeature tp.pos true tp.name .ftConstraints] else []) ++
    (if is_hk then [.hktUnsupportedFeature tp.pos false tp.name .ftConstraints] else [])
  else []) ++
  (if tp.reified ≠ ReifyKind.erased then
    (if nested then [.hktUnsupportedFeature tp.pos true tp.name .ftReification] else []) ++
    (if is_hk then [.hktUnsupportedFeature tp.pos false tp.name .ftReification] else [])
  else []) ++
  (if !tp.user_attributes.isEmpty then
    (if nested then [.hktUnsupportedFeature tp.pos true tp.name .ftUserAttrs] else []) ++
    (if is_hk then [.hktUnsupportedFeature tp.pos false tp.name .ftUserAttrs] else [])
  else []) ++
  (if !tp.variance.is_invariant then
    (if nested then [.hktUnsupportedFeature tp.pos true tp.name .ftVariance] else []) ++
    (if is_hk then [.hktUnsupportedFeature tp.pos false tp.name .ftVariance] else [])
  else [])

mutual

/-- The validate pass of `check_tparams` (lines 110–112): run
`check_tparam` on every member of the list in declaration order. -/
def validateList (st : ScopeTable) (tps : List Tparam) (nested : Bool) :
    ScopeTable × List NamingPhaseError :=
  match tps with
  | [] => (st, [])
  | tp :: rest =>
      let r1 := check_tparam st tp nested
      let r2 := validateList r1.1 rest nested
      (r2.1, r1.2 ++ r2.2)

/-- `check_tparam` (lines 128–252): name rules, feature restrictions, then
the recursive `check_tparams(&tparam.parameters, true)` call — the latter
written out inline (bind pass, validate pass, unconditional unbind since
the recursive call always passes `nested = true`). -/
def check_tparam (st : ScopeTable) (tp : Tparam) (nested : Bool) :
    ScopeTable × List NamingPhaseError :=
  match tp with
  | .mk variance name pos parameters constraints rf user_attributes =>
      let tp' : Tparam := .mk variance name pos parameters constraints rf user_attributes
      let nerrs := nameErrs tp' nested
      let ferrs := featureErrs tp' nested
      let b := bindTparams st parameters
      let v := validateList b.1 parameters true
      (unbindTparams v.1 parameters, nerrs ++ ferrs ++ (b.2 ++ v.2))

end

/-- `check_tparams` (lines 68–126): bind pass, validate pass, and — when
`nested` — the unbind step. -/
def check_tparams (st : ScopeTable) (tps : List Tparam) (nested : Bool) :
    ScopeTable × List NamingPhaseError :=
  let b := bindTparams st tps
  let v := validateList b.1 tps nested
  ((if nested then unbindTparams v.1 tps else v.1), b.2 ++ v.2)

/-- Proof that `check_tparam` is the name rules, the feature restrictions,
and an ordinary `check_tparams` call on the nested parameter list with
`nested = true`, in that order. -/
theorem check_tparam_eq (st : ScopeTable) (tp : Tparam) (nested : Bool) :
    check_tparam st tp nested =
      ((check_tparams st tp.parameters true).1,
        nameErrs tp nested ++ featureErrs tp nested ++
          (check_tparams st tp.parameters true).2) := by
  cases tp with
  | mk v n p ps cs r ua => rfl

/-- A type hint (`oxidized::aast_defs::Hint`), flattened: the pass only
distinguishes the `Habstr` constructor of `Hint_`, so every other
constructor is collapsed into `other`. -/
inductive Hint where
  | habstr (pos : Pos) (name : String) (args : List Hint) : Hint
  | other (pos : Pos) : Hint

/-- Position of a hint (the first component of the `Hint` pair). -/
def Hint.pos : Hint → Pos
  | .habstr p _ _ => p
  | .other p => p

/-- Classish abstraction marker (`oxidized::ast_defs::Abstraction`). -/
inductive Abstraction where
  | concrete
  | abstract_
deriving DecidableEq

/-- Classish declaration kind (`oxidized::ast_defs::ClassishKind`). -/
inductive ClassishKind where
  | cclass (a : Abstraction)
  | cinterface
  | ctrait
  | cenum
  | cenumClass (a : Abstraction)
deriving DecidableEq

/-- Rust `ClassishKind::is_cinterface`. -/
def ClassishKind.is_cinterface : ClassishKind → Bool
  | .cinterface => true
  | _ => false

/-- A class member variable (`ClassVar`); the interface pass consults only
`is_static` and the position of its `id`. -/
structure ClassVar where
  is_static : Bool
  pos : Pos

/-- A method declaration (`oxidized::aast_defs::Method_`), restricted to
the fields the two passes consult: the position of its `name`, its
`tparams`, and its body's statement list (`body.fb_ast.0`, elements
modelled as `Unit` since only emptiness is consulted). -/
structure Method_ where
  name_pos : Pos
  tparams : List Tparam
  body_fb_ast : List Unit

/-- A class-like declaration (`oxidized::aast_defs::Class_`), restricted
to the fields the two passes consult. -/
structure Class_ where
  kind : ClassishKind
  tparams : List Tparam
  uses : List Hint
  vars : List ClassVar
  methods : List Method_

/-- A type alias declaration (`oxidized::aast_defs::Typedef`), restricted
to the field the pass consults. -/
structure Typedef where
  tparams : List Tparam

/-- A function declaration (`oxidized::aast_defs::Fun_`), restricted to
the field the pass consults. -/
structure Fun_ where
  tparams : List Tparam

/-- The state of `ValidateHintHabstrPass`: the Scope Table and the two
context flags of the `Flags` bitfield. -/
structure PassState where
  tparam_info : ScopeTable
  in_method_or_fun : Bool
  in_where_constraint : Bool
deriving DecidableEq

/-- The initial pass state (`ValidateHintHabstrPass::default()`). -/
def PassState.initial : PassState :=
  { tparam_info := [], in_method_or_fun := false, in_where_constraint := false }

/-- Hook `on_ty_class__top_down` (lines 258–275): clear the Scope Table,
then bind-and-validate the class tparams as a top-level list. -/
def on_ty_class__top_down (st : PassState) (elem : Class_) :
    PassState × List NamingPhaseError :=
  let r := check_tparams [] elem.tparams false
  ({ st with tparam_info := r.1 }, r.2)

/-- Hook `on_ty_typedef_top_down` (lines 277–291): clear the Scope Table,
then bind-and-validate the typedef tparams as a top-level list. -/
def on_ty_typedef_top_down (st : PassState) (elem : Typedef) :
    PassState × List NamingPhaseError :=
  let r := check_tparams [] elem.tparams false
  ({ st with tparam_info := r.1 }, r.2)

/-- Hook `on_ty_fun__top_down` (lines 293–311): clear the Scope Table,
bind-and-validate the function tparams as top-level, then set
`IN_METHOD_OR_FUN`. -/
def on_ty_fun__top_down (st : PassState) (elem : Fun_) :
    PassState × List NamingPhaseError :=
  let r := check_tparams [] elem.tparams false
  ({ st with tparam_info := r.1, in_method_or_fun := true }, r.2)

/-- Hook `on_ty_method__top_down` (lines 313–330): bind-and-validate the
method tparams as top-level without clearing, then set
`IN_METHOD_OR_FUN`. -/
def on_ty_method__top_down (st : PassState) (elem : Method_) :
    PassState × List NamingPhaseError :=
  let r := check_tparams st.tparam_info elem.tparams false
  ({ st with tparam_info := r.1, in_method_or_fun := true }, r.2)

/-- Hook `on_ty_where_constraint_hint_top_down` (lines 332–342): set
`IN_WHERE_CONSTRAINT`. -/
def on_ty_where_constraint_hint_top_down (st : PassState) :
    PassState × List NamingPhaseError :=
  ({ st with in_where_constraint := true }, [])

/-- Hook `on_ty_hint_top_down` (lines 344–367): when both context flags
are set and the hint is an `Habstr` reference to a name with an in-scope
higher-kinded Scope Table entry, emit the where-constraint
`HKTUnsupportedFeature` diagnostic. -/
def on_ty_hint_top_down (st : PassState) (elem : Hint) :
    PassState × List NamingPhaseError :=
  if st.in_method_or_fun && st.in_where_constraint then
    match elem with
    | .habstr pos t _ =>
        match lookupST st.tparam_info t with
        | some (_, true, .higher) =>
            (st, [.hktUnsupportedFeature pos false t .ftWhereConstraints])
        | _ => (st, [])
    | .other _ => (st, [])
  else (st, [])

/-- One traversal hook invocation of `ValidateHintHabstrPass`, as a tagged
event: the traversal engine is external, so a traversal is modelled as the
sequence of hook calls it performs. -/
inductive Event where
  | classE (elem : Class_)
  | typedefE (elem : Typedef)
  | funE (elem : Fun_)
  | methodE (elem : Method_)
  | whereConstraintHintE
  | hintE (elem : Hint)

/-- Dispatch one hook invocation. -/
def step (st : PassState) : Event → PassState × List NamingPhaseError
  | .classE c => on_ty_class__top_down st c
  | .typedefE t => on_ty_typedef_top_down st t
  | .funE f => on_ty_fun__top_down st f
  | .methodE m => on_ty_method__top_down st m
  | .whereConstraintHintE => on_ty_where_constraint_hint_top_down st
  | .hintE h => on_ty_hint_top_down st h

/-- Run a sequence of hook invocations, accumulating diagnostics in
traversal order. -/
def run_events (st : PassState) : List Event → PassState × List NamingPhaseError
  | [] => (st, [])
  | e :: rest =>
      let r1 := step st e
      let r2 := run_events r1.1 rest
      (r2.1, r1.2 ++ r2.2)

/-- The `fold_while` of `on_ty_class__bottom_up` in
`validate_interface.rs` (lines 40–59): scan the member variables for the
positions of the first instance variable and the first static variable,
stopping early once both are found. -/
def find_var_positions (acc : Option Pos × Option Pos) :
    List ClassVar → Option Pos × Option Pos
  | [] => acc
  | var :: rest =>
      match acc with
      | (some i, some s) => (some i, some s)
      | (hi, none) =>
          if var.is_static then find_var_positions (hi, some var.pos) rest
          else
            match hi with
            | none => find_var_positions (some var.pos, none) rest
            | some i => find_var_positions (some i, none) rest
      | (none, some s) =>
          if var.is_static then find_var_positions (none, some s) rest
          else find_var_positions (some var.pos, some s) rest

/-- `ValidateInterfacePass::on_ty_class__bottom_up`
(`validate_interface.rs`, lines 21–82): when the declaration is an
interface, one `InterfaceUsesTrait` per `use` clause, at most one
`InterfaceWithMemberVariable` and one `InterfaceWithStaticMemberVariable`
(at the first qualifying member each), and one `AbstractBody` per method
with a non-empty body. -/
def on_ty_class__bottom_up (elem : Class_) : List NamingPhaseError :=
  if elem.kind.is_cinterface then
    (elem.uses.map fun h => .interfaceUsesTrait h.pos) ++
    (let ps := find_var_positions (none, none) elem.vars
     (match ps.1 with
      | some pos => [NamingPhaseError.interfaceWithMemberVariable pos]
      | none => []) ++
     (match ps.2 with
      | some pos => [NamingPhaseError.interfaceWithStaticMemberVariable pos]
      | none => [])) ++
    ((elem.methods.filter fun m => !m.body_fb_ast.isEmpty).map
      fun m => .abstractBody m.name_pos)
  else []

/-- Characterisation of lookup after insert. -/
theorem lookup_insertST (st : ScopeTable) (k : String) (v : ScopeEntry) (k' : String) :
    lookupST (insertST st k v) k' = if k' = k then some v else lookupST st k' := by
  induction st with
  | nil => by_cases h : k' = k <;> simp [insertST, lookupST, h]
  | cons hd rest ih =>
      obtain ⟨k0, v0⟩ := hd
      by_cases h1 : k0 = k
      · subst h1
        by_cases h2 : k' = k0 <;> simp [insertST, lookupST, h2]
      · by_cases h2 : k' = k0
        · subst h2
          simp [insertST, lookupST, h1, Ne.symm h1]
        · simp [insertST, lookupST, h1, h2, ih]

/-- Characterisation of lookup after the and-modify unbind of one key. -/
theorem lookup_unbindST (st : ScopeTable) (k k' : String) :
    lookupST (unbindST st k) k' =
      if k' = k then (lookupST st k).map (fun e => (e.1, false, e.2.2))
      else lookupST st k' := by
  induction st with
  | nil => by_cases h : k' = k <;> simp [unbindST, lookupST, h]
  | cons hd rest ih =>
      obtain ⟨k0, p, b, kd⟩ := hd
      by_cases h1 : k0 = k
      · subst h1
        by_cases h2 : k' = k0 <;> simp [unbindST, lookupST, h2]
      · by_cases h2 : k' = k0
        · subst h2
          simp [unbindST, lookupST, h1, Ne.symm h1]
        · simp [unbindST, lookupST, h1, h2, Ne.symm h1, ih]

/-- The state reached by the bind pass over `tp :: rest`. -/
theorem bindTparams_cons_state (st : ScopeTable) (tp : Tparam) (rest : List Tparam)
    (h : tp.name ≠ WILDCARD) :
    (bindTparams st (tp :: rest)).1 =
      (bindTparams (insertST st tp.name
        (tp.pos, true, if tp.parameters.isEmpty then .concrete else .higher)) rest).1 := by
  simp only [bindTparams, h, if_false, ite_false]

/-- The bind pass never removes a key from the Scope Table. -/
theorem bindTparams_preserves_isSome (tps : List Tparam) :
    ∀ (st : ScopeTable) (k : String), (lookupST st k).isSome →
      (lookupST (bindTparams st tps).1 k).isSome := by
  induction tps with
  | nil => intro st k h; simpa [bindTparams] using h
  | cons tp rest ih =>
      intro st k h
      by_cases hw : tp.name = WILDCARD
      · simpa [bindTparams, hw] using ih st k h
      · rw [bindTparams_cons_state st tp rest hw]
        apply ih
        rw [lookup_insertST]
        by_cases hk : k = tp.name <;> simp [hk, h]

/-- The bind pass binds every non-wildcard name of the list. -/
theorem bindTparams_mem_isSome (tps : List Tparam) :
    ∀ (st : ScopeTable) (tp : Tparam), tp ∈ tps → tp.name ≠ WILDCARD →
      (lookupST (bindTparams st tps).1 tp.name).isSome := by
  induction tps with
  | nil => intro st tp h; exact absurd h (List.not_mem_nil tp)
  | cons hd rest ih =>
      intro st tp hmem hw
      rcases List.mem_cons.mp hmem with heq | htl
      · subst heq
        rw [bindTparams_cons_state st tp rest hw]
        apply bindTparams_preserves_isSome
        rw [lookup_insertST]
        simp
      · by_cases hwhd : hd.name = WILDCARD
        · simpa [bindTparams, hwhd] using ih st tp htl hw
        · rw [bindTparams_cons_state st hd rest hwhd]
          exact ih _ tp htl hw

/-- The bind pass never introduces a wildcard entry. -/
theorem bindTparams_wildcard_none (tps : List Tparam) :
    ∀ (st : ScopeTable), lookupST st WILDCARD = none →
      lookupST (bindTparams st tps).1 WILDCARD = none := by
  induction tps with
  | nil => intro st h; simpa [bindTparams] using h
  | cons tp rest ih =>
      intro st h
      by_cases hw : tp.name = WILDCARD
      · simpa [bindTparams, hw] using ih st h
      · rw [bindTparams_cons_state st tp rest hw]
        apply ih
        rw [lookup_insertST]
        simp [Ne.symm hw, h]

/-- A diagnostic is not a shadow or reuse diagnostic for the wildcard name. -/
def not_wild_shadow_reuse : NamingPhaseError → Prop
  | .shadowedTparam _ n _ => n ≠ WILDCARD
  | .tparamNonShadowingReuse _ n => n ≠ WILDCARD
  | _ => True

/-- Shadow and reuse diagnostics of the bind pass always carry the name of
a non-wildcard parameter of the list. -/
theorem bindTparams_errs (tps : List Tparam) :
    ∀ (st : ScopeTable), ∀ e ∈ (bindTparams st tps).2, not_wild_shadow_reuse e := by
  induction tps with
  | nil => intro st e he; simp [bindTparams] at he
  | cons tp rest ih =>
      intro st e he
      by_cases hw : tp.name = WILDCARD
      · exact ih st e (by simpa [bindTparams, hw] using he)
      · rw [show (bindTparams st (tp :: rest)).2 =
              (match lookupST st tp.name with
                | some (prev_pos, true, _) =>
                    [NamingPhaseError.shadowedTparam tp.pos tp.name prev_pos]
                | some (_, false, _) => [.tparamNonShadowingReuse tp.pos tp.name]
                | none => []) ++
              (bindTparams (insertST st tp.name
                (tp.pos, true, if tp.parameters.isEmpty then .concrete else .higher)) rest).2
            from by simp only [bindTparams, hw, ite_false]] at he
        rcases List.mem_append.mp he with hh | ht
        · rcases hlk : lookupST st tp.name with _ | ⟨p, b, kd⟩
          · rw [hlk] at hh; simp at hh
          · rw [hlk] at hh
            cases b <;> simp at hh <;> subst hh <;> exact hw
        · exact ih _ e ht

/-- The unbind step never removes a key. -/
theorem unbindTparams_preserves_isSome (tps : List Tparam) :
    ∀ (st : ScopeTable) (k : String), (lookupST st k).isSome →
      (lookupST (unbindTparams st tps) k).isSome := by
  induction tps with
  | nil => intro st k h; simpa [unbindTparams] using h
  | cons tp rest ih =>
      intro st k h
      by_cases hw : tp.name = WILDCARD
      · simpa [unbindTparams, hw] using ih st k h
      · rw [show unbindTparams st (tp :: rest) = unbindTparams (unbindST st tp.name) rest
            from by simp [unbindTparams, hw]]
        apply ih
        rw [lookup_unbindST]
        by_cases hk : k = tp.name
        · subst hk
          simpa [Option.isSome_map] using h
        · simpa [hk] using h

/-- The unbind step never introduces a wildcard entry. -/
theorem unbindTparams_wildcard_none (tps : List Tparam) :
    ∀ (st : ScopeTable), lookupST st WILDCARD = none →
      lookupST (unbindTparams st tps) WILDCARD = none := by
  induction tps with
  | nil => intro st h; simpa [unbindTparams] using h
  | cons tp rest ih =>
      intro st h
      by_cases hw : tp.name = WILDCARD
      · simpa [unbindTparams, hw] using ih st h
      · rw [show unbindTparams st (tp :: rest) = unbindTparams (unbindST st tp.name) rest
            from by simp [unbindTparams, hw]]
        apply ih
        rw [lookup_unbindST]
        simp [Ne.symm hw, h]

/-- An entry already marked out of scope is left exactly as it is by the
unbind step. -/
theorem unbindTparams_false_stable (tps : List Tparam) :
    ∀ (st : ScopeTable) (k : String) (p : Pos) (kd : TparamKind),
      lookupST st k = some (p, false, kd) →
      lookupST (unbindTparams st tps) k = some (p, false, kd) := by
  induction tps with
  | nil => intro st k p kd h; simpa [unbindTparams] using h
  | cons tp rest ih =>
      intro st k p kd h
      by_cases hw : tp.name = WILDCARD
      · simpa [unbindTparams, hw] using ih st k p kd h
      · rw [show unbindTparams st (tp :: rest) = unbindTparams (unbindST st tp.name) rest
            from by simp [unbindTparams, hw]]
        apply ih
        rw [lookup_unbindST]
        by_cases hk : k = tp.name
        · subst hk; simp [h]
        · simp [hk, h]

/-- After the unbind step, every non-wildcard name of the list that has a
table entry has it marked out of scope. -/
theorem unbindTparams_mem_false (tps : List Tparam) :
    ∀ (st : ScopeTable) (tp : Tparam), tp ∈ tps → tp.name ≠ WILDCARD →
      (lookupST st tp.name).isSome →
      ∃ (p : Pos) (kd : TparamKind),
        lookupST (unbindTparams st tps) tp.name = some (p, false, kd) := by
  induction tps with
  | nil => intro st tp h; exact absurd h (List.not_mem_nil tp)
  | cons hd rest ih =>
      intro st tp hmem hw hs
      rcases List.mem_cons.mp hmem with heq | htl
      · subst heq
        rw [show unbindTparams st (tp :: rest) = unbindTparams (unbindST st tp.name) rest
            from by simp [unbindTparams, hw]]
        rcases Option.isSome_iff_exists.mp hs with ⟨⟨p, b, kd⟩, hp⟩
        refine ⟨p, kd, unbindTparams_false_stable rest _ tp.name p kd ?_⟩
        rw [lookup_unbindST]
        simp [hp]
      · by_cases hwhd : hd.name = WILDCARD
        · rw [show unbindTparams st (hd :: rest) = unbindTparams st rest
              from by simp [unbindTparams, hwhd]]
          exact ih st tp htl hw hs
        · rw [show unbindTparams st (hd :: rest) = unbindTparams (unbindST st hd.name) rest
              from by simp [unbindTparams, hwhd]]
          apply ih _ tp htl hw
          rw [lookup_unbindST]
          by_cases hk : tp.name = hd.name
          · rw [if_pos hk, ← hk]
            simpa [Option.isSome_map] using hs
          · simpa [hk] using hs

/-- Name-rule diagnostics are never shadow or reuse diagnostics. -/
theorem nameErrs_nwsr (tp : Tparam) (nested : Bool) :
    ∀ e ∈ nameErrs tp nested, not_wild_shadow_reuse e := by
  intro e he
  unfold nameErrs at he
  split at he
  · simp at he; subst he; trivial
  · split at he
    · simp at he; subst he; trivial
    · split at he
      · simp at he; subst he; trivial
      · simp at he

/-- Membership in a conditional list with empty alternative. -/
theorem mem_of_ite_nil {α : Type} {c : Prop} [Decidable c] {l : List α} {e : α}
    (h : e ∈ if c then l else []) : e ∈ l := by
  split at h
  · exact h
  · simp at h

/-- Membership in one feature-restriction block of `featureErrs`. -/
theorem mem_feature_block {c1 c2 c3 : Prop} [Decidable c1] [Decidable c2] [Decidable c3]
    {x1 x2 e : NamingPhaseError}
    (h : e ∈ if c1 then (if c2 then [x1] else []) ++ (if c3 then [x2] else []) else []) :
    e = x1 ∨ e = x2 := by
  rcases List.mem_append.mp (mem_of_ite_nil h) with h2 | h3
  · exact Or.inl (by simpa using mem_of_ite_nil h2)
  · exact Or.inr (by simpa using mem_of_ite_nil h3)

/-- Feature-restriction diagnostics are never shadow or reuse diagnostics. -/
theorem featureErrs_nwsr (tp : Tparam) (nested : Bool) :
    ∀ e ∈ featureErrs tp nested, not_wild_shadow_reuse e := by
  intro e he
  simp only [featureErrs, List.mem_append] at he
  rcases he with ((h | h) | h) | h <;>
    rcases mem_feature_block h with rfl | rfl <;> trivial

/-- Invariant of the validate pass over a list: no wildcard entry is
created, no key is removed, and every diagnostic is either not a
shadow/reuse diagnostic or does not carry the wildcard name. -/
def ValidateInv (st : ScopeTable) (tps : List Tparam) (nested : Bool) : Prop :=
  (lookupST st WILDCARD = none → lookupST (validateList st tps nested).1 WILDCARD = none) ∧
  (∀ k, (lookupST st k).isSome → (lookupST (validateList st tps nested).1 k).isSome) ∧
  (∀ e ∈ (validateList st tps nested).2, not_wild_shadow_reuse e)

/-- The same invariant for validating a single parameter. -/
def CheckInv (st : ScopeTable) (tp : Tparam) (nested : Bool) : Prop :=
  (lookupST st WILDCARD = none → lookupST (check_tparam st tp nested).1 WILDCARD = none) ∧
  (∀ k, (lookupST st k).isSome → (lookupST (check_tparam st tp nested).1 k).isSome) ∧
  (∀ e ∈ (check_tparam st tp nested).2, not_wild_shadow_reuse e)

/-- Inductive step of the invariant for `check_tparam`. -/
theorem checkInv_step (st : ScopeTable) (nested : Bool) (v : Variance) (name : String)
    (pos : Pos) (parameters : List Tparam) (constraints : List Unit) (rf : ReifyKind)
    (user_attributes : List Unit)
    (ih : ValidateInv (bindTparams st parameters).1 parameters true) :
    CheckInv st (.mk v name pos parameters constraints rf user_attributes) nested := by
  obtain ⟨ih1, ih2, ih3⟩ := ih
  have hsteq : check_tparam st (.mk v name pos parameters constraints rf user_attributes) nested =
      (unbindTparams (validateList (bindTparams st parameters).1 parameters true).1 parameters,
        nameErrs (.mk v name pos parameters constraints rf user_attributes) nested ++
          featureErrs (.mk v name pos parameters constraints rf user_attributes) nested ++
          ((bindTparams st parameters).2 ++
            (validateList (bindTparams st parameters).1 parameters true).2)) := rfl
  refine ⟨?_, ?_, ?_⟩
  · intro h
    rw [hsteq]
    exact unbindTparams_wildcard_none parameters _
      (ih1 (bindTparams_wildcard_none parameters st h))
  · intro k h
    rw [hsteq]
    exact unbindTparams_preserves_isSome parameters _ k
      (ih2 k (bindTparams_preserves_isSome parameters st k h))
  · intro e he
    rw [hsteq] at he
    rcases List.mem_append.mp he with h12 | h34
    · rcases List.mem_append.mp h12 with h1 | h2
      · exact nameErrs_nwsr _ nested e h1
      · exact featureErrs_nwsr _ nested e h2
    · rcases List.mem_append.mp h34 with h3 | h4
      · exact bindTparams_errs parameters st e h3
      · exact ih3 e h4

/-- Base case of the invariant for the validate pass. -/
theorem validateInv_nil (st : ScopeTable) (nested : Bool) : ValidateInv st [] nested := by
  refine ⟨fun h => h, fun k h => h, ?_⟩
  intro e he
  simp [validateList] at he

/-- Inductive step of the invariant for the validate pass. -/
theorem validateInv_cons (st : ScopeTable) (nested : Bool) (tp : Tparam) (rest : List Tparam)
    (ih1 : CheckInv st tp nested)
    (ih2 : ValidateInv (check_tparam st tp nested).1 rest nested) :
    ValidateInv st (tp :: rest) nested := by
  obtain ⟨a1, a2, a3⟩ := ih1
  obtain ⟨b1, b2, b3⟩ := ih2
  have hsteq : validateList st (tp :: rest) nested =
      ((validateList (check_tparam st tp nested).1 rest nested).1,
        (check_tparam st tp nested).2 ++
          (validateList (check_tparam st tp nested).1 rest nested).2) := rfl
  refine ⟨?_, ?_, ?_⟩
  · intro h
    rw [hsteq]
    exact b1 (a1 h)
  · intro k h
    rw [hsteq]
    exact b2 k (a2 k h)
  · intro e he
    rw [hsteq] at he
    rcases List.mem_append.mp he with h1 | h2
    · exact a3 e h1
    · exact b3 e h2

/-- The invariant holds for every validate pass. -/
theorem validateList_inv (st : ScopeTable) (tps : List Tparam) (nested : Bool) :
    ValidateInv st tps nested :=
  validateList.induct ValidateInv CheckInv
    (fun st nested v name pos parameters constraints rf ua ih =>
      checkInv_step st nested v name pos parameters constraints rf ua ih)
    validateInv_nil validateInv_cons st tps nested

/-- Bind-and-validate never creates a wildcard entry. -/
theorem check_tparams_wildcard_none (st : ScopeTable) (tps : List Tparam) (nested : Bool)
    (h : lookupST st WILDCARD = none) :
    lookupST (check_tparams st tps nested).1 WILDCARD = none := by
  have hb := bindTparams_wildcard_none tps st h
  have hv := (validateList_inv (bindTparams st tps).1 tps nested).1 hb
  show lookupST (if nested then
      unbindTparams (validateList (bindTparams st tps).1 tps nested).1 tps
    else (validateList (bindTparams st tps).1 tps nested).1) WILDCARD = none
  split
  · exact unbindTparams_wildcard_none tps _ hv
  · exact hv

/-- Bind-and-validate never removes a Scope Table key. -/
theorem check_tparams_preserves_isSome (st : ScopeTable) (tps : List Tparam) (nested : Bool)
    (k : String) (h : (lookupST st k).isSome) :
    (lookupST (check_tparams st tps nested).1 k).isSome := by
  have hb := bindTparams_preserves_isSome tps st k h
  have hv := (validateList_inv (bindTparams st tps).1 tps nested).2.1 k hb
  show (lookupST (if nested then
      unbindTparams (validateList (bindTparams st tps).1 tps nested).1 tps
    else (validateList (bindTparams st tps).1 tps nested).1) k).isSome
  split
  · exact unbindTparams_preserves_isSome tps _ k hv
  · exact hv

/-- No shadow or reuse diagnostic of bind-and-validate carries the
wildcard name. -/
theorem check_tparams_errs (st : ScopeTable) (tps : List Tparam) (nested : Bool) :
    ∀ e ∈ (check_tparams st tps nested).2, not_wild_shadow_reuse e := by
  intro e he
  have heq : (check_tparams st tps nested).2 =
      (bindTparams st tps).2 ++ (validateList (bindTparams st tps).1 tps nested).2 := rfl
  rw [heq] at he
  rcases List.mem_append.mp he with h1 | h2
  · exact bindTparams_errs tps st e h1
  · exact (validateList_inv (bindTparams st tps).1 tps nested).2.2 e h2

/-- A type parameter with all optional features absent, as built by the
Rust unit-test helpers. -/
def mk_tparam (name : String) (pos : Pos) (parameters : List Tparam) : Tparam :=
  .mk .invariant name pos parameters [] .erased []

/-- A method with the given tparams and an empty body, as built by the
Rust unit-test helper `mk_method`. -/
def mk_method (tparams : List Tparam) : Method_ :=
  { name_pos := 0, tparams := tparams, body_fb_ast := [] }

/-- A concrete (non-interface) class with the given tparams and methods,
as built by the Rust unit-test helper `mk_class`. -/
def mk_class (tparams : List Tparam) (methods : List Method_) : Class_ :=
  { kind := .cclass .concrete, tparams := tparams, uses := [], vars := [],
    methods := methods }

/-- C1: in the bind pass, each non-wildcard parameter contributes exactly
one `ShadowedTparam` when its name is found in scope, exactly one
`TparamNonShadowingReuse` when found out of scope, and nothing when
absent; in all three cases the entry is then overwritten with the new
position, `inScope = true`, and the kind determined by the parameter's
own nested list. -/
theorem spec_c1 (st : ScopeTable) (tp : Tparam) (rest : List Tparam)
    (h : tp.name ≠ WILDCARD) :
    (∀ prev_pos kd, lookupST st tp.name = some (prev_pos, true, kd) →
        bindTparams st (tp :: rest) =
          ((bindTparams (insertST st tp.name (tp.pos, true,
              if tp.parameters.isEmpty then .concrete else .higher)) rest).1,
            NamingPhaseError.shadowedTparam tp.pos tp.name prev_pos ::
              (bindTparams (insertST st tp.name (tp.pos, true,
                if tp.parameters.isEmpty then .concrete else .higher)) rest).2)) ∧
    (∀ prev_pos kd, lookupST st tp.name = some (prev_pos, false, kd) →
        bindTparams st (tp :: rest) =
          ((bindTparams (insertST st tp.name (tp.pos, true,
              if tp.parameters.isEmpty then .concrete else .higher)) rest).1,
            NamingPhaseError.tparamNonShadowingReuse tp.pos tp.name ::
              (bindTparams (insertST st tp.name (tp.pos, true,
                if tp.parameters.isEmpty then .concrete else .higher)) rest).2)) ∧
    (lookupST st tp.name = none →
        bindTparams st (tp :: rest) =
          bindTparams (insertST st tp.name (tp.pos, true,
            if tp.parameters.isEmpty then .concrete else .higher)) rest) := by
  refine ⟨?_, ?_, ?_⟩
  · intro prev_pos kd hlk
    simp only [bindTparams, if_neg h, hlk, List.singleton_append]
  · intro prev_pos kd hlk
    simp only [bindTparams, if_neg h, hlk, List.singleton_append]
  · intro hlk
    simp only [bindTparams, if_neg h, hlk, List.nil_append]

/-- Witness for C1 at a concrete input: binding `T` over a table where
`T` is in scope at position 1 yields exactly one shadowing diagnostic and
overwrites the entry. -/
theorem spec_c1_witness :
    bindTparams [("T", (1, true, TparamKind.concrete))] [mk_tparam "T" 2 []] =
      ([("T", (2, true, TparamKind.concrete))],
        [NamingPhaseError.shadowedTparam 2 "T" 1]) := by
  have h := (spec_c1 [("T", (1, true, TparamKind.concrete))] (mk_tparam "T" 2 [])
    [] (by decide)).1 1 TparamKind.concrete (by decide)
  exact h.trans (by decide)

/-- C2: the where-constraint hint check emits the `HKTUnsupportedFeature`
diagnostic with feature `ftWhereConstraints` and `because_nested = false`
exactly when both context flags are set, the hint is an abstract type
reference to a name `t`, and the Scope Table has an in-scope higher-kinded
entry for `t`; in every other case the hint visit emits nothing. -/
theorem spec_c2 (st : PassState) (elem : Hint) :
    (∃ pos t args prev_pos,
        elem = Hint.habstr pos t args ∧
        st.in_method_or_fun = true ∧ st.in_where_constraint = true ∧
        lookupST st.tparam_info t = some (prev_pos, true, TparamKind.higher) ∧
        on_ty_hint_top_down st elem =
          (st, [NamingPhaseError.hktUnsupportedFeature pos false t
            UnsupportedFeature.ftWhereConstraints])) ∨
    (on_ty_hint_top_down st elem = (st, []) ∧
      ¬ ∃ pos t args prev_pos,
          elem = Hint.habstr pos t args ∧
          st.in_method_or_fun = true ∧ st.in_where_constraint = true ∧
          lookupST st.tparam_info t = some (prev_pos, true, TparamKind.higher)) := by
  by_cases hflags : st.in_method_or_fun = true ∧ st.in_where_constraint = true
  · obtain ⟨h1, h2⟩ := hflags
    cases elem with
    | other pos =>
        right
        refine ⟨by simp [on_ty_hint_top_down, h1, h2], ?_⟩
        rintro ⟨_, _, _, _, heq, _⟩
        exact Hint.noConfusion heq
    | habstr pos t args =>
        rcases hlk : lookupST st.tparam_info t with _ | ⟨p, b, kd⟩
        · right
          refine ⟨by simp [on_ty_hint_top_down, h1, h2, hlk], ?_⟩
          rintro ⟨pos', t', args', pp, heq, _, _, hlk'⟩
          obtain ⟨rfl, rfl, rfl⟩ : pos' = pos ∧ t' = t ∧ args' = args := by
            cases heq; exact ⟨rfl, rfl, rfl⟩
          rw [hlk] at hlk'
          exact Option.noConfusion hlk'
        · match b, kd with
          | true, TparamKind.higher =>
              left
              exact ⟨pos, t, args, p, rfl, h1, h2, hlk,
                by simp [on_ty_hint_top_down, h1, h2, hlk]⟩
          | true, TparamKind.concrete =>
              right
              refine ⟨by simp [on_ty_hint_top_down, h1, h2, hlk], ?_⟩
              rintro ⟨pos', t', args', pp, heq, _, _, hlk'⟩
              obtain ⟨rfl, rfl, rfl⟩ : pos' = pos ∧ t' = t ∧ args' = args := by
                cases heq; exact ⟨rfl, rfl, rfl⟩
              rw [hlk] at hlk'
              simp at hlk'
          | false, _ =>
              right
              refine ⟨by simp [on_ty_hint_top_down, h1, h2, hlk], ?_⟩
              rintro ⟨pos', t', args', pp, heq, _, _, hlk'⟩
              obtain ⟨rfl, rfl, rfl⟩ : pos' = pos ∧ t' = t ∧ args' = args := by
                cases heq; exact ⟨rfl, rfl, rfl⟩
              rw [hlk] at hlk'
              simp at hlk'
  · right
    constructor
    · unfold on_ty_hint_top_down
      rw [if_neg]
      intro hb
      rcases Bool.and_eq_true _ _ |>.mp hb with ⟨hb1, hb2⟩
      exact hflags ⟨hb1, hb2⟩
    · rintro ⟨_, _, _, _, _, hm, hw, _⟩
      exact hflags ⟨hm, hw⟩

/-- C3: after bind-and-validate of a nested list, every non-wildcard name
bound by the bind pass has its entry retained but marked out of scope; and
in the literal scenario — class with higher-kinded `TH` whose nested list
declares `T`, then a method of the same class declaring concrete `T` —
the traversal emits exactly one `TparamNonShadowingReuse` and no
`ShadowedTparam`. -/
theorem spec_c3 (st : ScopeTable) (tps : List Tparam) (tp : Tparam)
    (h1 : tp ∈ tps) (h2 : tp.name ≠ WILDCARD) :
    (∃ p kd, lookupST (check_tparams st tps true).1 tp.name = some (p, false, kd)) ∧
    (run_events PassState.initial
        [Event.classE (mk_class [mk_tparam "TH" 1 [mk_tparam "T" 2 []]]
            [mk_method [mk_tparam "T" 3 []]]),
         Event.methodE (mk_method [mk_tparam "T" 3 []])]).2 =
      [NamingPhaseError.tparamNonShadowingReuse 3 "T"] := by
  constructor
  · have hb := bindTparams_mem_isSome tps st tp h1 h2
    have hv := (validateList_inv (bindTparams st tps).1 tps true).2.1 tp.name hb
    exact unbindTparams_mem_false tps _ tp h1 h2 hv
  · decide

/-- Witness for C3 at a concrete input: validating the singleton nested
list `[T]` from the empty table leaves `T` recorded but out of scope. -/
theorem spec_c3_witness :
    (∃ p kd, lookupST (check_tparams [] [mk_tparam "T" 5 []] true).1 "T" =
        some (p, false, kd)) ∧
    (run_events PassState.initial
        [Event.classE (mk_class [mk_tparam "TH" 1 [mk_tparam "T" 2 []]]
            [mk_method [mk_tparam "T" 3 []]]),
         Event.methodE (mk_method [mk_tparam "T" 3 []])]).2 =
      [NamingPhaseError.tparamNonShadowingReuse 3 "T"] :=
  spec_c3 [] [mk_tparam "T" 5 []] (mk_tparam "T" 5 [])
    (List.mem_singleton.mpr rfl) (by decide)

/-- C4 counterexample: binding `T` as concrete records kind `concrete`,
yet a later binding of `T` as higher-kinded (a shadowing attempt within
one list) overwrites the stored kind with `higher`. -/
theorem spec_c4_counterexample :
    lookupST (bindTparams [] [mk_tparam "T" 1 []]).1 "T" =
      some (1, true, TparamKind.concrete) ∧
    lookupST (bindTparams []
        [mk_tparam "T" 1 [], mk_tparam "T" 2 [mk_tparam "T2" 3 []]]).1 "T" =
      some (2, true, TparamKind.higher) ∧
    TparamKind.concrete ≠ TparamKind.higher := by decide

/-- C4 amended: the bind pass overwrites the whole Scope Table entry of a
name that is already recorded — after a later binding of the same
non-wildcard name, the stored position, scope bit and kind are those of
the new parameter, the kind being `higher` iff its nested list is
non-empty. -/
theorem spec_c4 (st : ScopeTable) (tp : Tparam) (h : tp.name ≠ WILDCARD)
    (prev : ScopeEntry) (_hprev : lookupST st tp.name = some prev) :
    lookupST (bindTparams st [tp]).1 tp.name =
      some (tp.pos, true,
        if tp.parameters.isEmpty then TparamKind.concrete else TparamKind.higher) := by
  have hst : (bindTparams st [tp]).1 = insertST st tp.name (tp.pos, true,
      if tp.parameters.isEmpty then TparamKind.concrete else TparamKind.higher) := by
    simp only [bindTparams, if_neg h]
  rw [hst, lookup_insertST]
  simp

/-- Witness for the amended C4 at a concrete input: rebinding `T` (now
higher-kinded) over a table recording `T` as concrete yields the new
entry, kind included. -/
theorem spec_c4_witness :
    lookupST (bindTparams [("T", (1, true, TparamKind.concrete))]
        [mk_tparam "T" 2 [mk_tparam "T2" 3 []]]).1 "T" =
      some (2, true, TparamKind.higher) := by
  have h := spec_c4 [("T", (1, true, TparamKind.concrete))]
    (mk_tparam "T" 2 [mk_tparam "T2" 3 []]) (by decide)
    (1, true, TparamKind.concrete) (by decide)
  exact h.trans (by decide)

/-- C5: the single-parameter name rules are mutually exclusive with first
match winning — at most one naming diagnostic, `ThisReserved` before
`WildcardHintDisallowed` before `StartWithT`, and none when no rule
matches. -/
theorem spec_c5 (tp : Tparam) (nested : Bool) :
    (nameErrs tp nested).length ≤ 1 ∧
    (to_lowercase tp.name = THIS.data →
      nameErrs tp nested = [NamingPhaseError.thisReserved tp.pos]) ∧
    (to_lowercase tp.name ≠ THIS.data →
      (tp.name = WILDCARD ∧ (nested = false ∨ ¬tp.parameters.isEmpty)) →
      nameErrs tp nested = [NamingPhaseError.wildcardHintDisallowed tp.pos]) ∧
    (to_lowercase tp.name ≠ THIS.data →
      ¬(tp.name = WILDCARD ∧ (nested = false ∨ ¬tp.parameters.isEmpty)) →
      (tp.name = "" ∨ ¬starts_with tp.name 'T') →
      nameErrs tp nested = [NamingPhaseError.startWithT tp.pos]) ∧
    (to_lowercase tp.name ≠ THIS.data →
      ¬(tp.name = WILDCARD ∧ (nested = false ∨ ¬tp.parameters.isEmpty)) →
      ¬(tp.name = "" ∨ ¬starts_with tp.name 'T') →
      nameErrs tp nested = []) := by
  have hwild : (tp.name = WILDCARD && (!nested || !tp.parameters.isEmpty)) = true ↔
      tp.name = WILDCARD ∧ (nested = false ∨ ¬tp.parameters.isEmpty) := by
    cases nested <;> cases hemp : tp.parameters.isEmpty <;>
      simp [hemp, Bool.and_eq_true, decide_eq_true_eq]
  have hstart : (tp.name.isEmpty || !starts_with tp.name 'T') = true ↔
      (tp.name = "" ∨ ¬starts_with tp.name 'T') := by
    cases hsw : starts_with tp.name 'T' <;>
      simp [String.isEmpty_iff, hsw]
  refine ⟨?_, ?_, ?_, ?_, ?_⟩
  · unfold nameErrs
    split
    · simp
    · split
      · simp
      · split <;> simp
  · intro h1
    simp only [nameErrs, if_pos h1]
  · intro h1 h2
    rw [nameErrs, if_neg h1, if_pos (hwild.mpr h2)]
  · intro h1 h2 h3
    rw [nameErrs, if_neg h1, if_neg (fun hb => h2 (hwild.mp hb)), if_pos (hstart.mpr h3)]
  · intro h1 h2 h3
    rw [nameErrs, if_neg h1, if_neg (fun hb => h2 (hwild.mp hb)),
      if_neg (fun hb => h3 (hstart.mp hb))]

/-- Witness for C5 at concrete inputs: the name `This` (which also starts
with `T`) triggers only `ThisReserved`, by the first-match rule. -/
theorem spec_c5_witness :
    nameErrs (mk_tparam "This" 7 []) false = [NamingPhaseError.thisReserved 7] :=
  (spec_c5 (mk_tparam "This" 7 []) false).2.1 (by decide)

/-- Whether a parameter has the given restricted feature, as the spec
describes it: a non-empty constraint list, a non-erased reification
marker, a non-empty user-attribute list, or a non-invariant variance
marker. -/
def featurePresent (tp : Tparam) : UnsupportedFeature → Bool
  | .ftConstraints => !tp.constraints.isEmpty
  | .ftReification => if tp.reified = ReifyKind.erased then false else true
  | .ftUserAttrs => !tp.user_attributes.isEmpty
  | .ftVariance => !tp.variance.is_invariant
  | .ftWhereConstraints => false

/-- C6: for each of the four restricted features, the parameter's feature
check emits the `because_nested = true` diagnostic exactly when the
feature is present and the list is nested, and, independently, the
`because_nested = false` diagnostic exactly when the feature is present
and the parameter is itself higher-kinded. -/
theorem spec_c6 (tp : Tparam) (nested : Bool) (f : UnsupportedFeature)
    (hf : f ≠ UnsupportedFeature.ftWhereConstraints) :
    ((featureErrs tp nested).count
        (NamingPhaseError.hktUnsupportedFeature tp.pos true tp.name f) =
      if featurePresent tp f = true ∧ nested = true then 1 else 0) ∧
    ((featureErrs tp nested).count
        (NamingPhaseError.hktUnsupportedFeature tp.pos false tp.name f) =
      if featurePresent tp f = true ∧ tp.parameters.isEmpty = false then 1 else 0) := by
  cases f with
  | ftWhereConstraints => exact absurd rfl hf
  | ftConstraints =>
      cases nested <;> cases hemp : tp.parameters.isEmpty <;>
        cases hc : tp.constraints.isEmpty <;>
        by_cases hr : tp.reified = ReifyKind.erased <;>
        cases hu : tp.user_attributes.isEmpty <;>
        cases hv : tp.variance.is_invariant <;>
        simp [featureErrs, featurePresent, hc, hr, hu, hv, hemp,
          List.count_cons, List.count_nil, List.count_append]
  | ftReification =>
      cases nested <;> cases hemp : tp.parameters.isEmpty <;>
        cases hc : tp.constraints.isEmpty <;>
        by_cases hr : tp.reified = ReifyKind.erased <;>
        cases hu : tp.user_attributes.isEmpty <;>
        cases hv : tp.variance.is_invariant <;>
        simp [featureErrs, featurePresent, hc, hr, hu, hv, hemp,
          List.count_cons, List.count_nil, List.count_append]
  | ftUserAttrs =>
      cases nested <;> cases hemp : tp.parameters.isEmpty <;>
        cases hc : tp.constraints.isEmpty <;>
        by_cases hr : tp.reified = ReifyKind.erased <;>
        cases hu : tp.user_attributes.isEmpty <;>
        cases hv : tp.variance.is_invariant <;>
        simp [featureErrs, featurePresent, hc, hr, hu, hv, hemp,
          List.count_cons, List.count_nil, List.count_append]
  | ftVariance =>
      cases nested <;> cases hemp : tp.parameters.isEmpty <;>
        cases hc : tp.constraints.isEmpty <;>
        by_cases hr : tp.reified = ReifyKind.erased <;>
        cases hu : tp.user_attributes.isEmpty <;>
        cases hv : tp.variance.is_invariant <;>
        simp [featureErrs, featurePresent, hc, hr, hu, hv, hemp,
          List.count_cons, List.count_nil, List.count_append]

/-- Witness for C6 at a concrete input: a nested higher-kinded parameter
with a constraint yields both constraint diagnostics, one per flag. -/
theorem spec_c6_witness :
    ((featureErrs (Tparam.mk .invariant "TH" 4 [mk_tparam "T" 5 []] [()] .erased [])
        true).count
      (NamingPhaseError.hktUnsupportedFeature 4 true "TH"
        UnsupportedFeature.ftConstraints) = 1) ∧
    ((featureErrs (Tparam.mk .invariant "TH" 4 [mk_tparam "T" 5 []] [()] .erased [])
        true).count
      (NamingPhaseError.hktUnsupportedFeature 4 false "TH"
        UnsupportedFeature.ftConstraints) = 1) := by
  have h := spec_c6 (Tparam.mk .invariant "TH" 4 [mk_tparam "T" 5 []] [()] .erased [])
    true UnsupportedFeature.ftConstraints (by decide)
  exact ⟨h.1.trans (by decide), h.2.trans (by decide)⟩

/-- The hint hook never changes the pass state. -/
theorem on_ty_hint_state (st : PassState) (h : Hint) :
    (on_ty_hint_top_down st h).1 = st := by
  unfold on_ty_hint_top_down
  split
  · cases h with
    | other p => rfl
    | habstr p t a =>
        rcases hlk : lookupST st.tparam_info t with _ | ⟨q, b, kd⟩
        · simp [hlk]
        · cases b <;> cases kd <;> simp [hlk]
  · rfl

/-- C7: the two context flags are only ever set to true — the function,
method and where-constraint hooks set them and no hook resets either — so
once a flag is true it stays true across any further sequence of hook
invocations. -/
theorem spec_c7 :
    (∀ (st : PassState) (e : Event), st.in_method_or_fun = true →
      (step st e).1.in_method_or_fun = true) ∧
    (∀ (st : PassState) (e : Event), st.in_where_constraint = true →
      (step st e).1.in_where_constraint = true) ∧
    (∀ (st : PassState) (f : Fun_), (on_ty_fun__top_down st f).1.in_method_or_fun = true) ∧
    (∀ (st : PassState) (m : Method_),
      (on_ty_method__top_down st m).1.in_method_or_fun = true) ∧
    (∀ (st : PassState),
      (on_ty_where_constraint_hint_top_down st).1.in_where_constraint = true) ∧
    (∀ (st : PassState) (evs : List Event), st.in_method_or_fun = true →
      (run_events st evs).1.in_method_or_fun = true) ∧
    (∀ (st : PassState) (evs : List Event), st.in_where_constraint = true →
      (run_events st evs).1.in_where_constraint = true) := by
  have hstep1 : ∀ (st : PassState) (e : Event), st.in_method_or_fun = true →
      (step st e).1.in_method_or_fun = true := by
    intro st e hst
    cases e with
    | classE c => simpa [step, on_ty_class__top_down] using hst
    | typedefE t => simpa [step, on_ty_typedef_top_down] using hst
    | funE f => simp [step, on_ty_fun__top_down]
    | methodE m => simp [step, on_ty_method__top_down]
    | whereConstraintHintE =>
        simpa [step, on_ty_where_constraint_hint_top_down] using hst
    | hintE h => rw [step, on_ty_hint_state]; exact hst
  have hstep2 : ∀ (st : PassState) (e : Event), st.in_where_constraint = true →
      (step st e).1.in_where_constraint = true := by
    intro st e hst
    cases e with
    | classE c => simpa [step, on_ty_class__top_down] using hst
    | typedefE t => simpa [step, on_ty_typedef_top_down] using hst
    | funE f => simpa [step, on_ty_fun__top_down] using hst
    | methodE m => simpa [step, on_ty_method__top_down] using hst
    | whereConstraintHintE => simp [step, on_ty_where_constraint_hint_top_down]
    | hintE h => rw [step, on_ty_hint_state]; exact hst
  have hrun1 : ∀ (st : PassState) (evs : List Event), st.in_method_or_fun = true →
      (run_events st evs).1.in_method_or_fun = true := by
    intro st evs
    induction evs generalizing st with
    | nil => intro h; simpa [run_events] using h
    | cons e rest ih =>
        intro h
        exact ih (step st e).1 (hstep1 st e h)
  have hrun2 : ∀ (st : PassState) (evs : List Event), st.in_where_constraint = true →
      (run_events st evs).1.in_where_constraint = true := by
    intro st evs
    induction evs generalizing st with
    | nil => intro h; simpa [run_events] using h
    | cons e rest ih =>
        intro h
        exact ih (step st e).1 (hstep2 st e h)
  exact ⟨hstep1, hstep2,
    fun st f => by simp [on_ty_fun__top_down],
    fun st m => by simp [on_ty_method__top_down],
    fun st => by simp [on_ty_where_constraint_hint_top_down],
    hrun1, hrun2⟩

/-- Witness for C7 at a concrete input: a flag set before a class and a
hint hook is still set afterwards. -/
theorem spec_c7_witness :
    (run_events (PassState.mk [] true false)
      [Event.classE (mk_class [] []), Event.hintE (Hint.other 0)]).1.in_method_or_fun
      = true :=
  spec_c7.2.2.2.2.2.1 (PassState.mk [] true false)
    [Event.classE (mk_class [] []), Event.hintE (Hint.other 0)] rfl

/-- C8: a wildcard-named parameter is never inserted into the Scope Table
by any bind pass, and no shadow or reuse diagnostic ever carries the
wildcard name, in any list, nested or top-level. -/
theorem spec_c8 (st : ScopeTable) (tps : List Tparam) (nested : Bool)
    (h : lookupST st WILDCARD = none) :
    lookupST (check_tparams st tps nested).1 WILDCARD = none ∧
    (∀ p q, NamingPhaseError.shadowedTparam p WILDCARD q ∉
      (check_tparams st tps nested).2) ∧
    (∀ p, NamingPhaseError.tparamNonShadowingReuse p WILDCARD ∉
      (check_tparams st tps nested).2) := by
  refine ⟨check_tparams_wildcard_none st tps nested h, ?_, ?_⟩
  · intro p q hmem
    exact check_tparams_errs st tps nested _ hmem rfl
  · intro p hmem
    exact check_tparams_errs st tps nested _ hmem rfl

/-- Witness for C8 at a concrete input: a list containing a higher-kinded
parameter with a nested wildcard, checked from the empty table. -/
theorem spec_c8_witness :
    lookupST (check_tparams [] [mk_tparam "TH" 1 [mk_tparam "_" 2 []]] false).1
        WILDCARD = none ∧
    (∀ p q, NamingPhaseError.shadowedTparam p WILDCARD q ∉
      (check_tparams [] [mk_tparam "TH" 1 [mk_tparam "_" 2 []]] false).2) ∧
    (∀ p, NamingPhaseError.tparamNonShadowingReuse p WILDCARD ∉
      (check_tparams [] [mk_tparam "TH" 1 [mk_tparam "_" 2 []]] false).2) :=
  spec_c8 [] [mk_tparam "TH" 1 [mk_tparam "_" 2 []]] false rfl

/-- The member-variable scan returns, for each slot still empty in the
accumulator, the position of the first qualifying variable in declaration
order. -/
theorem find_var_positions_spec (vars : List ClassVar) :
    ∀ (oi os : Option Pos),
      find_var_positions (oi, os) vars =
        (oi.or ((vars.find? fun v => !v.is_static).map ClassVar.pos),
         os.or ((vars.find? fun v => v.is_static).map ClassVar.pos)) := by
  induction vars with
  | nil => intro oi os; simp [find_var_positions, Option.or_none]
  | cons v rest ih =>
      intro oi os
      match oi, os with
      | some i, some s => simp [find_var_positions, Option.or]
      | none, none =>
          cases hs : v.is_static <;>
            simp [find_var_positions, hs, List.find?, ih, Option.none_or, Option.or]
      | some i, none =>
          cases hs : v.is_static <;>
            simp [find_var_positions, hs, List.find?, ih, Option.none_or, Option.or]
      | none, some s =>
          cases hs : v.is_static <;>
            simp [find_var_positions, hs, List.find?, ih, Option.none_or, Option.or]

/-- Discriminator for `InterfaceUsesTrait` diagnostics. -/
def is_uses_trait_err : NamingPhaseError → Bool
  | .interfaceUsesTrait _ => true
  | _ => false

/-- Discriminator for `InterfaceWithMemberVariable` diagnostics. -/
def is_member_var_err : NamingPhaseError → Bool
  | .interfaceWithMemberVariable _ => true
  | _ => false

/-- Discriminator for `InterfaceWithStaticMemberVariable` diagnostics. -/
def is_static_member_var_err : NamingPhaseError → Bool
  | .interfaceWithStaticMemberVariable _ => true
  | _ => false

/-- Discriminator for `AbstractBody` diagnostics. -/
def is_abstract_body_err : NamingPhaseError → Bool
  | .abstractBody _ => true
  | _ => false

/-- C9: the interface structural check emits nothing for non-interface
declarations; for an interface it emits one `InterfaceUsesTrait` per use
clause, at most one `InterfaceWithMemberVariable` (at the first instance
variable, if any), at most one `InterfaceWithStaticMemberVariable` (at the
first static variable, if any), and one `AbstractBody` per method with a
non-empty body. -/
theorem spec_c9 (elem : Class_) :
    (elem.kind.is_cinterface = false → on_ty_class__bottom_up elem = []) ∧
    (elem.kind.is_cinterface = true →
      ((on_ty_class__bottom_up elem).filter is_uses_trait_err =
        elem.uses.map fun h => NamingPhaseError.interfaceUsesTrait h.pos) ∧
      ((on_ty_class__bottom_up elem).filter is_member_var_err =
        match elem.vars.find? fun v => !v.is_static with
        | some v => [NamingPhaseError.interfaceWithMemberVariable v.pos]
        | none => []) ∧
      ((on_ty_class__bottom_up elem).filter is_static_member_var_err =
        match elem.vars.find? fun v => v.is_static with
        | some v => [NamingPhaseError.interfaceWithStaticMemberVariable v.pos]
        | none => []) ∧
      ((on_ty_class__bottom_up elem).filter is_abstract_body_err =
        (elem.methods.filter fun m => !m.body_fb_ast.isEmpty).map
          fun m => NamingPhaseError.abstractBody m.name_pos)) := by
  constructor
  · intro h
    simp [on_ty_class__bottom_up, h]
  · intro h
    have hbody : on_ty_class__bottom_up elem =
        (elem.uses.map fun hh => NamingPhaseError.interfaceUsesTrait hh.pos) ++
        ((match ((elem.vars.find? fun v => !v.is_static).map ClassVar.pos) with
          | some pos => [NamingPhaseError.interfaceWithMemberVariable pos]
          | none => []) ++
         (match ((elem.vars.find? fun v => v.is_static).map ClassVar.pos) with
          | some pos => [NamingPhaseError.interfaceWithStaticMemberVariable pos]
          | none => [])) ++
        ((elem.methods.filter fun m => !m.body_fb_ast.isEmpty).map
          fun m => NamingPhaseError.abstractBody m.name_pos) := by
      unfold on_ty_class__bottom_up
      rw [if_pos h, find_var_positions_spec elem.vars none none]
      simp [Option.none_or]
    refine ⟨?_, ?_, ?_, ?_⟩ <;>
      rcases hf1 : elem.vars.find? fun v => !v.is_static with _ | v1 <;>
      rcases hf2 : elem.vars.find? fun v => v.is_static with _ | v2 <;>
      simp [hbody, hf1, hf2, List.filter_append, List.filter_map, Function.comp_def,
        is_uses_trait_err, is_member_var_err, is_static_member_var_err,
        is_abstract_body_err, List.filter_true, List.filter_false]

/-- An interface declaration with one use clause, an instance variable, a
static variable, and one method with a non-empty body. -/
def interface_fixture : Class_ :=
  { kind := .cinterface, tparams := [], uses := [Hint.other 1],
    vars := [ClassVar.mk false 2, ClassVar.mk true 3],
    methods := [Method_.mk 5 [] [()]] }

/-- Witness for C9 at concrete inputs: a non-interface class yields no
diagnostics, and the interface fixture yields its one use-clause
diagnostic. -/
theorem spec_c9_witness :
    on_ty_class__bottom_up (mk_class [] []) = [] ∧
    (on_ty_class__bottom_up interface_fixture).filter is_uses_trait_err =
      [NamingPhaseError.interfaceUsesTrait 1] :=
  ⟨(spec_c9 (mk_class [] [])).1 rfl, ((spec_c9 interface_fixture).2 rfl).1⟩

/-- C10: for a class declaring parameters `T` then `TH` with nested
parameter `T`, the nested bind overwrites the class-level entry for `T`
and the unbind step then marks it out of scope, so after the class hook
the table records `T` as out of scope (at the nested declaration's
position), and a subsequent method parameter named `T` on the same class
yields a `TparamNonShadowingReuse` rather than a `ShadowedTparam`. -/
theorem spec_c10 :
    lookupST (on_ty_class__top_down PassState.initial
        (mk_class [mk_tparam "T" 1 [], mk_tparam "TH" 2 [mk_tparam "T" 3 []]]
          [mk_method [mk_tparam "T" 4 []]])).1.tparam_info "T" =
      some (3, false, TparamKind.concrete) ∧
    (on_ty_method__top_down
        (on_ty_class__top_down PassState.initial
          (mk_class [mk_tparam "T" 1 [], mk_tparam "TH" 2 [mk_tparam "T" 3 []]]
            [mk_method [mk_tparam "T" 4 []]])).1
        (mk_method [mk_tparam "T" 4 []])).2 =
      [NamingPhaseError.tparamNonShadowingReuse 4 "T"] := by
  constructor
  · decide
  · decide
